import Mathlib

/-!
Verification development for `rectools/metrics/classification.py`:
confusion-table construction (`calc_confusions`), the per-user metric
formula layer (Precision, Recall, F1Beta, Accuracy, MCC), the TN-adding
wrapper of `ClassificationMetric.calc_per_user_from_confusion_df`, and the
batch driver `calc_classification_metrics`.

Modelling conventions:
- pandas DataFrames become Lean lists of rows; integer (int64) columns
  become `Int`; `groupby` becomes explicit per-user counting over the row
  list (with the sorted-by-key order of pandas groupby reproduced).
- float Series values become `FVal`: an exact rational together with the
  IEEE special values NaN / +inf / -inf, with the IEEE rules for the
  arithmetic and comparison operations the source uses (0/0 = NaN,
  x/0 = +-inf for x != 0, NaN == x is false, 0 * inf = NaN; the sign of
  zero is not tracked).  The claims under check only concern exact zero
  tests and NaN propagation, which binary floating point performs exactly.
- in-place pandas column assignment (`confusion_df[TN] = ...`) is modelled
  by explicit state passing: the wrapper returns the post-call state of the
  table object it received.
-/

/-- A row of the merged recommendations/interactions table.
`rank` is the 1-based recommendation rank, `none` when the item was not
recommended (NaN in the float column).  `interacted` is the interaction
marker of the spec's merged-row data model; `merge_reco` (outside this
file's source, a left join on the interactions side) sets it on every row
it produces.  `calc_confusions` itself never reads it. -/
structure MergedRow where
  user : Nat
  item : Nat
  rank : Option Nat
  interacted : Bool
deriving DecidableEq

/-- Parameters of a `DebiasMetric` (iqr_coef, random_state); only used as
an opaque key into the external downsampling collaborator. -/
structure DebiasParams where
  iqr_coef : Rat
  random_state : Nat
deriving DecidableEq

/-- The ten concrete metric variants of the source file: five base metric
kinds and their five Debias* subclasses. -/
inductive CMetric where
  | precision (k : Nat)
  | recall (k : Nat)
  | f1beta (k : Nat) (beta : Rat)
  | accuracy (k : Nat)
  | mcc (k : Nat)
  | dPrecision (k : Nat) (p : DebiasParams)
  | dRecall (k : Nat) (p : DebiasParams)
  | dF1beta (k : Nat) (beta : Rat) (p : DebiasParams)
  | dAccuracy (k : Nat) (p : DebiasParams)
  | dMCC (k : Nat) (p : DebiasParams)
deriving DecidableEq

/-- The `k` attribute of a metric object (`MetricAtK.k`). -/
def CMetric.k : CMetric → Nat
  | .precision k => k
  | .recall k => k
  | .f1beta k _ => k
  | .accuracy k => k
  | .mcc k => k
  | .dPrecision k _ => k
  | .dRecall k _ => k
  | .dF1beta k _ _ => k
  | .dAccuracy k _ => k
  | .dMCC k _ => k

/-- Debias parameters when the metric is one of the five Debias*
subclasses (`isinstance(metric, (DebiasPrecision, ..., DebiasMCC))`). -/
def CMetric.debiasParams : CMetric → Option DebiasParams
  | .dPrecision _ p => some p
  | .dRecall _ p => some p
  | .dF1beta _ _ p => some p
  | .dAccuracy _ p => some p
  | .dMCC _ p => some p
  | _ => none

/-- Whether the metric is one of the Debias* subclasses. -/
def CMetric.isDebias (m : CMetric) : Bool := m.debiasParams.isSome

/-- Whether the metric is in the `ClassificationMetric` hierarchy
(Accuracy, MCC and their Debias variants), i.e. requires a catalog. -/
def CMetric.needsCatalog : CMetric → Bool
  | .accuracy _ => true
  | .mcc _ => true
  | .dAccuracy _ _ => true
  | .dMCC _ _ => true
  | _ => false

/-- A float value: exact rational, or one of the IEEE special values. -/
inductive FVal where
  | num (q : Rat)
  | nan
  | pinf
  | ninf
deriving DecidableEq

namespace FVal

/-- IEEE addition (sign of zero not tracked). -/
def add : FVal → FVal → FVal
  | nan, _ => nan
  | _, nan => nan
  | pinf, ninf => nan
  | ninf, pinf => nan
  | pinf, _ => pinf
  | _, pinf => pinf
  | ninf, _ => ninf
  | _, ninf => ninf
  | num a, num b => num (a + b)

/-- IEEE multiplication (sign of zero not tracked; `0 * inf = NaN`). -/
def mul : FVal → FVal → FVal
  | nan, _ => nan
  | _, nan => nan
  | num a, num b => num (a * b)
  | num a, pinf => if a = 0 then nan else if 0 < a then pinf else ninf
  | pinf, num a => if a = 0 then nan else if 0 < a then pinf else ninf
  | num a, ninf => if a = 0 then nan else if 0 < a then ninf else pinf
  | ninf, num a => if a = 0 then nan else if 0 < a then ninf else pinf
  | pinf, pinf => pinf
  | pinf, ninf => ninf
  | ninf, pinf => ninf
  | ninf, ninf => pinf

/-- IEEE division: `0/0 = NaN`, `x/0 = +-inf` for finite `x != 0`,
`inf/inf = NaN`, `x/inf = 0` (sign of zero not tracked). -/
def div : FVal → FVal → FVal
  | nan, _ => nan
  | _, nan => nan
  | num a, num b =>
      if b = 0 then (if a = 0 then nan else if 0 < a then pinf else ninf)
      else num (a / b)
  | num _, pinf => num 0
  | num _, ninf => num 0
  | pinf, num b => if 0 ≤ b then pinf else ninf
  | ninf, num b => if 0 ≤ b then ninf else pinf
  | pinf, pinf => nan
  | pinf, ninf => nan
  | ninf, pinf => nan
  | ninf, ninf => nan

/-- IEEE equality test (`==`): NaN compares unequal to everything. -/
def beq : FVal → FVal → Bool
  | num a, num b => decide (a = b)
  | pinf, pinf => true
  | ninf, ninf => true
  | _, _ => false

/-- Membership test used by `Series.mean` to skip NaN entries. -/
def isNan : FVal → Bool
  | nan => true
  | _ => false

end FVal

/-- `pandas.Series.mean()` with its default `skipna=True`: drop NaN
entries, return NaN if nothing is left, else sum / count. -/
def meanF (l : List FVal) : FVal :=
  let vs := l.filter (fun v => !v.isNan)
  if vs.isEmpty then FVal.nan
  else FVal.div (vs.foldl FVal.add (FVal.num 0)) (FVal.num vs.length)

/-- A per-user row of the confusion table built by `calc_confusions`:
columns `__LIKED`, `__TP`, `__FP`, `__FN` (int64). -/
structure ConfusionRow where
  user : Nat
  liked : Int
  tp : Int
  fp : Int
  fn : Int
deriving DecidableEq

/-- The confusion DataFrame: its rows plus the optional `__TN` column
(present after the `ClassificationMetric` wrapper has added it, as a list
parallel to `rows`). -/
structure ConfusionDF where
  rows : List ConfusionRow
  tn : Option (List Int)
deriving DecidableEq

/-- The boolean `__is_hit` column: `Columns.Rank <= @k`.  A NaN rank
(item not recommended) compares false. -/
def isHit (k : Nat) (r : MergedRow) : Bool :=
  match r.rank with
  | some rk => rk ≤ k
  | none => false

/-- `merged.groupby(Columns.User)[Columns.Item].agg("size")` for one user:
the number of merged rows of that user. -/
def likedCount (merged : List MergedRow) (u : Nat) : Nat :=
  merged.countP (fun r => r.user == u)

/-- `merged.eval("__is_hit = rank <= @k").groupby(User)["__is_hit"].agg("sum")`
for one user: the number of that user's rows whose rank is defined and
at most `k`. -/
def tpCount (merged : List MergedRow) (k : Nat) (u : Nat) : Nat :=
  merged.countP (fun r => r.user == u && isHit k r)

/-- The TP count as the spec words it: rows whose rank is defined and at
most `k` AND whose interaction marker is set.  (Second definition for the
refinement comparison with `tpCount`, which is taken from the source.) -/
def tpCountSpec (merged : List MergedRow) (k : Nat) (u : Nat) : Nat :=
  merged.countP (fun r => r.user == u && isHit k r && r.interacted)

/-- Insert into a sorted list (ascending). -/
def insertSorted (x : Nat) : List Nat → List Nat
  | [] => [x]
  | y :: ys => if x ≤ y then x :: y :: ys else y :: insertSorted x ys

/-- Insertion sort, reproducing the ascending key order of pandas
`groupby`. -/
def sortNat (l : List Nat) : List Nat := l.foldr insertSorted []

/-- First-occurrence deduplication (auxiliary accumulator form). -/
def firstDedupAux (seen : List Nat) : List Nat → List Nat
  | [] => []
  | x :: xs =>
    if x ∈ seen then firstDedupAux seen xs
    else x :: firstDedupAux (x :: seen) xs

/-- Deduplicate keeping the first occurrence of each value, like the key
order of a Python dict / `defaultdict`. -/
def firstDedup (l : List Nat) : List Nat := firstDedupAux [] l

/-- `calc_confusions(merged, k)`: one row per distinct user of `merged`
(ascending, as pandas `groupby` sorts), with
`LIKED` = group size, `TP` = sum of `__is_hit`, `FP = k - TP`,
`FN = LIKED - TP` (int64 arithmetic, no clamping). -/
def calcConfusions (merged : List MergedRow) (k : Nat) : List ConfusionRow :=
  (sortNat (firstDedup (merged.map (fun r => r.user)))).map (fun u =>
    let liked : Int := likedCount merged u
    let tp : Int := tpCount merged k u
    { user := u, liked := liked, tp := tp, fp := (k : Int) - tp, fn := liked - tp })

/-- Per-user Precision body (`confusion_df[TP] / self.k`, float division). -/
def precisionRow (k : Nat) (tp : Int) : FVal :=
  FVal.div (.num (tp : Rat)) (.num (k : Rat))

/-- Per-user Recall body (`confusion_df[TP] / confusion_df[LIKED]`). -/
def recallRow (liked tp : Int) : FVal :=
  FVal.div (.num (tp : Rat)) (.num (liked : Rat))

/-- The raw F-beta formula
`(1 + beta_sqr) * p_k * r_k / (beta_sqr * p_k + r_k)` before the
`(p_k == 0) & (r_k == 0)` mask is applied. -/
def f1RawVal (beta : Rat) (p r : FVal) : FVal :=
  FVal.div (FVal.mul (FVal.mul (.num (1 + beta ^ 2)) p) r)
    (FVal.add (FVal.mul (.num (beta ^ 2)) p) r)

/-- Per-user F1Beta body: the raw formula, with the result overwritten by
`0.0` on rows where `(p_k == 0.0) & (r_k == 0.0)`. -/
def f1Row (k : Nat) (beta : Rat) (liked tp : Int) : FVal :=
  let p := precisionRow k tp
  let r := recallRow liked tp
  if p.beq (.num 0) && r.beq (.num 0) then .num 0 else f1RawVal beta p r

/-- Per-user Accuracy body:
`(confusion_df[TP] + confusion_df[TN]) / len(catalog)`. -/
def accuracyPerUser (tp tn : Int) (catSize : Nat) : FVal :=
  FVal.div (.num ((tp + tn : Int) : Rat)) (.num (catSize : Rat))

/-- The exact value of one user's MCC computation.  `np.sqrt` of the
int64 four-factor product is NaN when the product is negative; the source
then masks rows with `mcc_denominator == 0.0` to `0.0`; otherwise the
float value is `num / sqrt prod`, kept here in exact form as the pair
`(num, prod)` with `prod > 0`. -/
inductive MCCv where
  | nan
  | zero
  | val (num : Int) (prod : Int)
deriving DecidableEq

/-- Per-user MCC body: numerator `tp*tn - fp*fn`, denominator
`sqrt((tp+fp)(tp+fn)(tn+fp)(tn+fn))`, with the `denominator == 0.0` rows
masked to `0.0`.  A negative product makes the denominator NaN, so the
mask does not fire and the quotient is NaN. -/
def mccPerUser (tp tn fp fn : Int) : MCCv :=
  let num := tp * tn - fp * fn
  let prod := (tp + fp) * (tp + fn) * (tn + fp) * (tn + fn)
  if prod < 0 then .nan
  else if prod = 0 then .zero
  else .val num prod

/-- `ClassificationMetric.calc_per_user_from_confusion_df` lines 133-134:
`if TN not in confusion_df: confusion_df[TN] = len(catalog) - self.k - confusion_df[FN]`.
Returns the post-call state of the (mutated in place) argument table. -/
def withTN (df : ConfusionDF) (k : Nat) (cat : List Nat) : ConfusionDF :=
  match df.tn with
  | some _ => df
  | none => { df with tn := some (df.rows.map (fun r => (cat.length : Int) - (k : Int) - r.fn)) }

/-- The `__TN` column actually read by the per-user formulas after the
wrapper ran: the pre-existing column if present, else the freshly
computed one. -/
def tnUsed (df : ConfusionDF) (k : Nat) (cat : List Nat) : List Int :=
  ((withTN df k cat).tn).getD []

/-- `Accuracy.calc_per_user_from_confusion_df`: the TN-adding wrapper
followed by the per-user Accuracy formula.  First component is the
post-call state of the argument table. -/
def accuracyCalcPerUser (df : ConfusionDF) (k : Nat) (cat : List Nat) :
    ConfusionDF × List FVal :=
  (withTN df k cat,
    List.zipWith (fun r t => accuracyPerUser r.tp t cat.length) df.rows (tnUsed df k cat))

/-- `MCC.calc_per_user_from_confusion_df`: the TN-adding wrapper followed
by the per-user MCC formula. -/
def mccCalcPerUser (df : ConfusionDF) (k : Nat) (cat : List Nat) :
    ConfusionDF × List MCCv :=
  (withTN df k cat,
    List.zipWith (fun r t => mccPerUser r.tp t r.fp r.fn) df.rows (tnUsed df k cat))

/-- Result value of one entry of the driver's results dict: a float for
the mean of a simple metric or of Accuracy, or (for MCC) the list of
exact per-user MCC values whose skipna-mean the float result is. -/
inductive ResVal where
  | fv (v : FVal)
  | mccMean (perUser : List MCCv)
deriving DecidableEq

/-- The exceptions `calc_classification_metrics` can raise: `ValueError`
for a catalog-dependent metric without catalog, `TypeError` for an
unexpected metric object (unreachable over the closed `CMetric` type). -/
inductive DriverErr where
  | valueError
  | typeError
deriving DecidableEq

/-- One metric evaluation of the driver's inner loop, lines 622-630:
the `isinstance(metric, SimpleClassificationMetric)` branch computes the
mean without a catalog; the `ClassificationMetric` branch raises
`ValueError` when `catalog is None`, else adds TN and computes the mean.
`calc_from_confusion_df` is the skipna mean of the per-user series. -/
def evalMetric (m : CMetric) (df : ConfusionDF) (catalog : Option (List Nat)) :
    Except DriverErr ResVal :=
  match m with
  | .precision k | .dPrecision k _ =>
      .ok (.fv (meanF (df.rows.map (fun r => precisionRow k r.tp))))
  | .recall _ | .dRecall _ _ =>
      .ok (.fv (meanF (df.rows.map (fun r => recallRow r.liked r.tp))))
  | .f1beta k beta | .dF1beta k beta _ =>
      .ok (.fv (meanF (df.rows.map (fun r => f1Row k beta r.liked r.tp))))
  | .accuracy k | .dAccuracy k _ =>
      match catalog with
      | none => .error .valueError
      | some cat => .ok (.fv (meanF (accuracyCalcPerUser df k cat).2))
  | .mcc k | .dMCC k _ =>
      match catalog with
      | none => .error .valueError
      | some cat => .ok (.mccMean (mccCalcPerUser df k cat).2)

/-- The `k_map = defaultdict(list)` grouping of lines 606-608: keys in
first-seen order (Python dict order), each group listing its metrics in
mapping insertion order. -/
def kMap (ms : List (String × CMetric)) : List (Nat × List (String × CMetric)) :=
  (firstDedup (ms.map (fun p => p.2.k))).map (fun k =>
    (k, ms.filter (fun p => decide (p.2.k = k))))

/-- Lines 616-620: the confusion table built for one metric of a `k`
group.  `ds` is the external `DebiasMetric.make_downsample` collaborator
(modelled from the spec: an opaque deterministic transform of the merged
table, keyed by the metric's debias parameters).  A Debias* metric gets a
table built from its downsampled merged table, any other metric from
`merged` itself; either way `calcConfusions` runs once per metric. -/
def buildConfusionDF (ds : DebiasParams → List MergedRow → List MergedRow)
    (merged : List MergedRow) (k : Nat) (m : CMetric) : ConfusionDF :=
  match m.debiasParams with
  | some p => { rows := calcConfusions (ds p merged) k, tn := none }
  | none => { rows := calcConfusions merged k, tn := none }

/-- The inner loop of `calc_classification_metrics` over one `k` group
(lines 613-630).  For each metric a fresh confusion table is built before
the metric is evaluated.  The second component of the result counts the
`calcConfusions` invocations. -/
def goGroup (ds : DebiasParams → List MergedRow → List MergedRow)
    (merged : List MergedRow) (catalog : Option (List Nat)) (k : Nat) :
    List (String × CMetric) → Except DriverErr (List (String × ResVal) × Nat)
  | [] => .ok ([], 0)
  | (name, m) :: rest =>
    match evalMetric m (buildConfusionDF ds merged k m) catalog with
    | .error e => .error e
    | .ok v =>
      match goGroup ds merged catalog k rest with
      | .error e => .error e
      | .ok (rs, c) => .ok ((name, v) :: rs, c + 1)

/-- The outer loop of `calc_classification_metrics` over the `k` groups
(line 611), accumulating the results dict in processing order and the
total `calcConfusions` call count. -/
def goAll (ds : DebiasParams → List MergedRow → List MergedRow)
    (merged : List MergedRow) (catalog : Option (List Nat)) :
    List (Nat × List (String × CMetric)) → Except DriverErr (List (String × ResVal) × Nat)
  | [] => .ok ([], 0)
  | (k, es) :: rest =>
    match goGroup ds merged catalog k es with
    | .error e => .error e
    | .ok (rs, c) =>
      match goAll ds merged catalog rest with
      | .error e => .error e
      | .ok (rs2, c2) => .ok (rs ++ rs2, c + c2)

/-- `calc_classification_metrics(metrics, merged, catalog=None)`:
group by `k`, then evaluate every metric, building a confusion table per
metric.  Returns the results dict (insertion in processing order) paired
with the number of `calcConfusions` calls performed; an exception aborts
the whole call, returning no partial results. -/
def calcClassificationMetrics (ds : DebiasParams → List MergedRow → List MergedRow)
    (metrics : List (String × CMetric)) (merged : List MergedRow)
    (catalog : Option (List Nat)) : Except DriverErr (List (String × ResVal) × Nat) :=
  goAll ds merged catalog (kMap metrics)

/-- The number of `calcConfusions` invocations a driver call performed,
`none` when the call raised. -/
def countOf (r : Except DriverErr (List (String × ResVal) × Nat)) : Option Nat :=
  match r with
  | .ok (_, c) => some c
  | .error _ => none

/-- Compatibility of two merged rows with the data-model rank invariant:
if they belong to the same user and the first is ranked, their ranks must
differ. -/
def rowsCompat (r s : MergedRow) : Bool :=
  if r.user = s.user then
    match r.rank, s.rank with
    | some a, some b => decide (a ≠ b)
    | _, _ => true
  else true

/-- The data-model invariant that defined ranks are unique per user,
as a boolean check over the merged table. -/
def ranksUniq : List MergedRow → Bool
  | [] => true
  | r :: rs => rs.all (rowsCompat r) && ranksUniq rs

/-- The data-model invariant that defined ranks are positive
(1-based positions), as a boolean check over the merged table. -/
def ranksValid (merged : List MergedRow) : Bool :=
  merged.all (fun r => decide (1 ≤ r.rank.getD 1))

/-! ## Helper lemmas -/

/-- Two predicates agreeing on the members of a list give equal counts. -/
theorem countP_congr_mem {α : Type} (p q : α → Bool) :
    ∀ (l : List α), (∀ a ∈ l, p a = q a) → l.countP p = l.countP q
  | [], _ => rfl
  | a :: l, h => by
    rw [List.countP_cons, List.countP_cons, h a (List.mem_cons_self a l),
      countP_congr_mem p q l (fun b hb => h b (List.mem_cons_of_mem a hb))]

/-- Counting a conjunction of predicates counts at most as much as the
first conjunct alone. -/
theorem countP_and_le {α : Type} (p q : α → Bool) :
    ∀ (l : List α), l.countP (fun a => p a && q a) ≤ l.countP p
  | [] => Nat.le_refl 0
  | a :: l => by
    have ih := countP_and_le p q l
    rw [List.countP_cons, List.countP_cons]
    cases hp : p a <;> cases hq : q a <;> simp [hp, hq] <;> omega

/-- A list splits into the part satisfying a predicate and the rest. -/
theorem length_filter_add_not {α : Type} (p : α → Bool) :
    ∀ (l : List α), (l.filter p).length + (l.filter (fun a => !p a)).length = l.length
  | [] => rfl
  | a :: l => by
    have ih := length_filter_add_not p l
    cases hp : p a <;> simp [List.filter_cons, hp] <;> omega

/-- Two predicates agreeing on the members of a list filter it equally. -/
theorem filter_congr_mem {α : Type} (p q : α → Bool) :
    ∀ (l : List α), (∀ a ∈ l, p a = q a) → l.filter p = l.filter q
  | [], _ => rfl
  | a :: l, h => by
    have ih := filter_congr_mem p q l (fun b hb => h b (List.mem_cons_of_mem a hb))
    rw [List.filter_cons, List.filter_cons, h a (List.mem_cons_self a l), ih]

/-- Composing two filters filters by the conjunction. -/
theorem filter_filter_and {α : Type} (p q : α → Bool) :
    ∀ (l : List α), (l.filter q).filter p = l.filter (fun a => q a && p a)
  | [] => rfl
  | a :: l => by
    have ih := filter_filter_and p q l
    cases hq : q a <;> cases hp : p a <;> simp [List.filter_cons, hq, hp, ih]

/-- Membership in the accumulator form of first-occurrence dedup. -/
theorem mem_firstDedupAux (x : Nat) :
    ∀ (l seen : List Nat), x ∈ firstDedupAux seen l ↔ (x ∈ l ∧ x ∉ seen)
  | [], seen => by simp [firstDedupAux]
  | y :: l, seen => by
    by_cases hy : y ∈ seen
    · rw [firstDedupAux, if_pos hy, mem_firstDedupAux x l seen]
      constructor
      · rintro ⟨h1, h2⟩; exact ⟨List.mem_cons_of_mem y h1, h2⟩
      · rintro ⟨h1, h2⟩
        rcases List.mem_cons.mp h1 with rfl | h1
        · exact absurd hy h2
        · exact ⟨h1, h2⟩
    · rw [firstDedupAux, if_neg hy]
      rw [List.mem_cons, mem_firstDedupAux x l (y :: seen)]
      constructor
      · rintro (rfl | ⟨h1, h2⟩)
        · exact ⟨List.mem_cons_self x l, hy⟩
        · refine ⟨List.mem_cons_of_mem y h1, fun hx => h2 (List.mem_cons_of_mem y hx)⟩
      · rintro ⟨h1, h2⟩
        rcases List.mem_cons.mp h1 with rfl | h1
        · exact Or.inl rfl
        · by_cases hxy : x = y
          · exact Or.inl hxy
          · exact Or.inr ⟨h1, fun hx => (List.mem_cons.mp hx).elim hxy h2⟩

/-- Membership in first-occurrence dedup. -/
theorem mem_firstDedup (x : Nat) (l : List Nat) : x ∈ firstDedup l ↔ x ∈ l := by
  rw [firstDedup, mem_firstDedupAux]
  simp

/-- First-occurrence dedup yields a duplicate-free list. -/
theorem nodup_firstDedupAux : ∀ (l seen : List Nat), (firstDedupAux seen l).Nodup
  | [], _ => List.nodup_nil
  | y :: l, seen => by
    by_cases hy : y ∈ seen
    · rw [firstDedupAux, if_pos hy]
      exact nodup_firstDedupAux l seen
    · rw [firstDedupAux, if_neg hy]
      refine List.Nodup.cons ?_ (nodup_firstDedupAux l (y :: seen))
      intro hmem
      exact ((mem_firstDedupAux y l (y :: seen)).mp hmem).2 (List.mem_cons_self y seen)

/-- First-occurrence dedup yields a duplicate-free list. -/
theorem nodup_firstDedup (l : List Nat) : (firstDedup l).Nodup :=
  nodup_firstDedupAux l []

/-! ## Claims about the metric formula layer -/

/-- Claim C4: for a confusion row with nonnegative counts, if the MCC
denominator product `(TP+FP)(TP+FN)(TN+FP)(TN+FN)` is zero then the
numerator `TP*TN - FP*FN` is zero as well, and the per-user MCC
computation returns exactly `0.0` (the `denominator == 0` mask), not
NaN. -/
theorem mcc_zero_denominator_masked (tp tn fp fn : Int)
    (htp : 0 ≤ tp) (htn : 0 ≤ tn) (hfp : 0 ≤ fp) (hfn : 0 ≤ fn)
    (hprod : (tp + fp) * (tp + fn) * (tn + fp) * (tn + fn) = 0) :
    tp * tn - fp * fn = 0 ∧ mccPerUser tp tn fp fn = .zero := by
  have hnum : tp * tn - fp * fn = 0 := by
    rcases mul_eq_zero.mp hprod with h | h
    · rcases mul_eq_zero.mp h with h | h
      · rcases mul_eq_zero.mp h with h | h
        · have h1 : tp = 0 := by omega
          have h2 : fp = 0 := by omega
          simp [h1, h2]
        · have h1 : tp = 0 := by omega
          have h2 : fn = 0 := by omega
          simp [h1, h2]
      · have h1 : tn = 0 := by omega
        have h2 : fp = 0 := by omega
        simp [h1, h2]
    · have h1 : tn = 0 := by omega
      have h2 : fn = 0 := by omega
      simp [h1, h2]
  refine ⟨hnum, ?_⟩
  unfold mccPerUser
  simp [hprod]

/-- Witness for C4 at the concrete row TP=0, TN=1, FP=0, FN=1. -/
theorem mcc_zero_denominator_masked_witness :
    (0 : Int) * 1 - 0 * 1 = 0 ∧ mccPerUser 0 1 0 1 = .zero :=
  mcc_zero_denominator_masked 0 1 0 1 (by decide) (by decide) (by decide)
    (by decide) (by decide)

/-- Claim C5: on a row where precision and recall are both defined and
zero, `F1Beta` returns exactly `0.0` for every beta (the
`(p_k == 0) & (r_k == 0)` mask), while the raw F-beta formula would give
NaN there. -/
theorem f1_zero_when_precision_recall_zero (k : Nat) (beta : Rat) (liked tp : Int)
    (hp : precisionRow k tp = .num 0) (hr : recallRow liked tp = .num 0) :
    f1Row k beta liked tp = .num 0 ∧
      f1RawVal beta (precisionRow k tp) (recallRow liked tp) = .nan := by
  constructor
  · unfold f1Row
    rw [hp, hr]
    simp [FVal.beq]
  · rw [hp, hr]
    unfold f1RawVal
    simp [FVal.mul, FVal.add, FVal.div]

/-- Witness for C5 at k=1, beta=2, liked=1, tp=0. -/
theorem f1_zero_when_precision_recall_zero_witness :
    f1Row 1 2 1 0 = .num 0 ∧
      f1RawVal 2 (precisionRow 1 0) (recallRow 1 0) = .nan :=
  f1_zero_when_precision_recall_zero 1 2 1 0
    (by norm_num [precisionRow, FVal.div]) (by norm_num [recallRow, FVal.div])

/-- Claim C6: on a valid confusion row with `liked = 0` (so `TP = 0` by
the row invariant `0 <= TP <= liked`), Recall's per-user computation
propagates the degeneracy as NaN; it is not masked to `0.0`. -/
theorem recall_nan_when_liked_zero (liked tp : Int) (h0 : liked = 0)
    (htp0 : 0 ≤ tp) (htple : tp ≤ liked) :
    recallRow liked tp = .nan ∧ recallRow liked tp ≠ .num 0 := by
  have htp : tp = 0 := le_antisymm (h0 ▸ htple) htp0
  subst h0
  subst htp
  refine ⟨?_, ?_⟩ <;> simp [recallRow, FVal.div]

/-- Witness for C6 at the row liked=0, tp=0. -/
theorem recall_nan_when_liked_zero_witness :
    recallRow 0 0 = .nan ∧ recallRow 0 0 ≠ .num 0 :=
  recall_nan_when_liked_zero 0 0 rfl (by decide) (by decide)

/-- Claim C10: on a row with `liked = 0` and `TP = 0`, F1Beta returns NaN,
not `0.0`: recall is NaN there (0/0), so the `(p_k == 0) & (r_k == 0)`
mask does not fire (NaN compares unequal to 0), and the raw formula
propagates the NaN. -/
theorem f1_nan_when_liked_zero (k : Nat) (beta : Rat) (hk : 0 < k) :
    f1Row k beta 0 0 = .nan := by
  have hkq : (k : Rat) ≠ 0 := Nat.cast_ne_zero.mpr (by omega)
  unfold f1Row precisionRow recallRow f1RawVal
  simp [FVal.div, FVal.beq, FVal.mul, FVal.add, hkq]

/-- Witness for C10 at k=1, beta=1. -/
theorem f1_nan_when_liked_zero_witness : f1Row 1 1 0 0 = .nan :=
  f1_nan_when_liked_zero 1 1 (by decide)

/-- Claim C8: for a valid confusion row (nonnegative counts, `TP <= k`,
`TN = catalog_size - k - FN`) with `k <= catalog_size` (and a nonempty
catalog, which `k >= 1` forces), the Accuracy value
`(TP + TN) / catalog_size` is a finite number in `[0, 1]`. -/
theorem accuracy_in_unit_interval (tp fp fn tn : Int) (k catSize : Nat)
    (htp : 0 ≤ tp) (hfp : 0 ≤ fp) (hfn : 0 ≤ fn) (htn : 0 ≤ tn)
    (htpk : tp ≤ (k : Int)) (htneq : tn = (catSize : Int) - (k : Int) - fn)
    (hkcat : k ≤ catSize) (hcat : 0 < catSize) :
    accuracyPerUser tp tn catSize = .num (((tp + tn : Int) : Rat) / (catSize : Rat)) ∧
      0 ≤ ((tp + tn : Int) : Rat) / (catSize : Rat) ∧
      ((tp + tn : Int) : Rat) / (catSize : Rat) ≤ 1 := by
  have hcq : (catSize : Rat) ≠ 0 := Nat.cast_ne_zero.mpr (by omega)
  refine ⟨?_, ?_, ?_⟩
  · simp [accuracyPerUser, FVal.div, hcq]
  · apply div_nonneg
    · have : (0 : Int) ≤ tp + tn := by omega
      exact_mod_cast this
    · exact Nat.cast_nonneg catSize
  · rw [div_le_one (by exact_mod_cast hcat)]
    have h : tp + tn ≤ (catSize : Int) := by omega
    exact_mod_cast h

/-- Witness for C8 at the spec's end-to-end row (user A of the section-8
scenario): TP=1, FP=1, FN=1, TN=2, k=2, catalog size 5. -/
theorem accuracy_in_unit_interval_witness :
    accuracyPerUser 1 2 5 = .num (((1 + 2 : Int) : Rat) / (5 : Rat)) ∧
      0 ≤ ((1 + 2 : Int) : Rat) / (5 : Rat) ∧
      ((1 + 2 : Int) : Rat) / (5 : Rat) ≤ 1 :=
  accuracy_in_unit_interval 1 1 1 2 2 5 (by decide) (by decide) (by decide)
    (by decide) (by decide) (by decide) (by decide) (by decide)

/-- Claim C9: `ClassificationMetric.calc_per_user_from_confusion_df`
mutates its `confusion_df` argument in place (modelled as the returned
post-call table state): when the TN column is absent it is added as
`len(catalog) - k - FN` and remains in the caller's table; when a TN
column is already present the table is left unchanged and that column is
reused as is, so the supplied catalog has no effect on the TN values
used. -/
theorem classification_wrapper_tn_effect (rows : List ConfusionRow) (k : Nat)
    (cat cat' : List Nat) (t : List Int) :
    withTN { rows := rows, tn := none } k cat =
      { rows := rows,
        tn := some (rows.map (fun r => (cat.length : Int) - (k : Int) - r.fn)) } ∧
    withTN { rows := rows, tn := some t } k cat = { rows := rows, tn := some t } ∧
    tnUsed { rows := rows, tn := some t } k cat = t ∧
    tnUsed { rows := rows, tn := some t } k cat =
      tnUsed { rows := rows, tn := some t } k cat' :=
  ⟨rfl, rfl, rfl, rfl⟩

/-! ## Claims about `calc_confusions` -/

/-- The boolean rank-uniqueness check is the pairwise compatibility of the
rows. -/
theorem ranksUniq_pairwise :
    ∀ (l : List MergedRow), ranksUniq l = true →
      l.Pairwise (fun a b => rowsCompat a b = true)
  | [], _ => List.Pairwise.nil
  | r :: rs, h => by
    rw [ranksUniq, Bool.and_eq_true, List.all_eq_true] at h
    exact List.Pairwise.cons h.1 (ranksUniq_pairwise rs h.2)

/-- A row counted by `tpCount` has a defined rank between 1 and `k`
(positivity from the data-model invariant). -/
theorem rank_of_hit (merged : List MergedRow) (k : Nat) (hpos : ranksValid merged = true)
    (r : MergedRow) (hr : r ∈ merged) (hhit : isHit k r = true) :
    ∃ rk, r.rank = some rk ∧ 1 ≤ rk ∧ rk ≤ k := by
  cases hrank : r.rank with
  | none => rw [isHit, hrank] at hhit; exact absurd hhit (by simp)
  | some rk =>
    rw [isHit, hrank] at hhit
    have h1 := of_decide_eq_true ((List.all_eq_true.mp hpos) r hr)
    rw [hrank] at h1
    exact ⟨rk, rfl, h1, by simpa using hhit⟩

/-- Under the data-model invariant (defined ranks positive and unique per
user), at most `k` rows of a user can have rank at most `k`. -/
theorem tpCount_le_k (merged : List MergedRow) (k u : Nat)
    (hpos : ranksValid merged = true) (huniq : ranksUniq merged = true) :
    tpCount merged k u ≤ k := by
  rw [tpCount, List.countP_eq_length_filter]
  set l := merged.filter (fun r => r.user == u && isHit k r) with hl
  have hmem : ∀ r ∈ l, r ∈ merged ∧ r.user = u ∧ isHit k r = true := by
    intro r hr
    have h := List.mem_filter.mp hr
    have h2 := h.2
    rw [Bool.and_eq_true, beq_iff_eq] at h2
    exact ⟨h.1, h2.1, h2.2⟩
  have hpair : l.Pairwise (fun a b => rowsCompat a b = true) :=
    (ranksUniq_pairwise merged huniq).sublist (List.filter_sublist merged)
  have hpairne : l.Pairwise (fun a b => a.rank.getD 0 ≠ b.rank.getD 0) := by
    refine List.Pairwise.imp_of_mem ?_ hpair
    intro a b ha hb hcompat
    obtain ⟨hma, hua, hha⟩ := hmem a ha
    obtain ⟨hmb, hub, hhb⟩ := hmem b hb
    obtain ⟨ra, hra, _, _⟩ := rank_of_hit merged k hpos a hma hha
    obtain ⟨rb, hrb, _, _⟩ := rank_of_hit merged k hpos b hmb hhb
    rw [rowsCompat, if_pos (hua.trans hub.symm), hra, hrb] at hcompat
    rw [hra, hrb]
    simpa using hcompat
  have hnodup : (l.map (fun r => r.rank.getD 0)).Nodup :=
    List.pairwise_map.mpr hpairne
  have hsub : ∀ x ∈ l.map (fun r => r.rank.getD 0), x ∈ Finset.Icc 1 k := by
    intro x hx
    obtain ⟨r, hr, rfl⟩ := List.mem_map.mp hx
    obtain ⟨hmr, _, hhr⟩ := hmem r hr
    obtain ⟨rk, hrk, h1, h2⟩ := rank_of_hit merged k hpos r hmr hhr
    rw [hrk]
    exact Finset.mem_Icc.mpr ⟨h1, h2⟩
  have hlen : l.length ≤ (Finset.Icc 1 k).card := by
    rw [← List.length_map l (fun r => r.rank.getD 0),
      ← List.toFinset_card_of_nodup hnodup]
    exact Finset.card_le_card (fun y hy => hsub y (List.mem_toFinset.mp hy))
  simpa [Nat.card_Icc] using hlen

/-- Claim C2 (amended): on merged tables all of whose rows carry the
interaction marker — which is what the interactions-side left join
`merge_reco` produces — the TP value of every row that `calc_confusions`
returns equals the spec's count: rows with rank defined, at most `k`, and
the interaction marker set. -/
theorem calcConfusions_tp_matches_spec_on_marked (merged : List MergedRow)
    (k : Nat) (hmark : ∀ r ∈ merged, r.interacted = true)
    (row : ConfusionRow) (hrow : row ∈ calcConfusions merged k) :
    row.tp = (tpCountSpec merged k row.user : Int) := by
  obtain ⟨u, hu, rfl⟩ := List.mem_map.mp hrow
  show (tpCount merged k u : Int) = (tpCountSpec merged k u : Int)
  have h : tpCount merged k u = tpCountSpec merged k u := by
    rw [tpCount, tpCountSpec]
    refine countP_congr_mem _ _ merged (fun r hr => ?_)
    rw [hmark r hr, Bool.and_true]
  exact_mod_cast h

/-- Witness for the amended C2 on a one-row marked merged table. -/
theorem calcConfusions_tp_matches_spec_on_marked_witness :
    ({ user := 0, liked := 1, tp := 1, fp := 0, fn := 0 } : ConfusionRow).tp =
      (tpCountSpec [{ user := 0, item := 0, rank := some 1, interacted := true }] 1
        ({ user := 0, liked := 1, tp := 1, fp := 0, fn := 0 } : ConfusionRow).user : Int) :=
  calcConfusions_tp_matches_spec_on_marked
    [{ user := 0, item := 0, rank := some 1, interacted := true }] 1
    (by decide) { user := 0, liked := 1, tp := 1, fp := 0, fn := 0 } (by decide)

/-- Counterexample to C2 as stated: on a merged table holding one row with
rank 1 but the interaction marker cleared, `calc_confusions` produces
TP = 1 for that user (it tests only `rank <= k`), while the claimed count
of marked rows is 0. -/
theorem calcConfusions_tp_counts_unmarked_rows :
    calcConfusions [{ user := 0, item := 0, rank := some 1, interacted := false }] 1 =
      [{ user := 0, liked := 1, tp := 1, fp := 0, fn := 0 }] ∧
    tpCountSpec [{ user := 0, item := 0, rank := some 1, interacted := false }] 1 0 = 0 := by
  decide

/-- Claim C3 (amended): for any merged table and any `k`, every row
`calc_confusions` returns satisfies the identities `TP + FP = k` and
`TP + FN = liked`, and `liked`, `TP`, `FN` are nonnegative — all
unconditionally; `FP >= 0` holds additionally under the data-model
invariant that defined ranks are positive and unique per user. -/
theorem calcConfusions_row_invariants (merged : List MergedRow) (k : Nat)
    (row : ConfusionRow) (hrow : row ∈ calcConfusions merged k) :
    row.tp + row.fp = (k : Int) ∧ row.tp + row.fn = row.liked ∧
      0 ≤ row.liked ∧ 0 ≤ row.tp ∧ 0 ≤ row.fn ∧
      (ranksValid merged = true → ranksUniq merged = true → 0 ≤ row.fp) := by
  obtain ⟨u, hu, rfl⟩ := List.mem_map.mp hrow
  have h1 : tpCount merged k u ≤ likedCount merged u := by
    rw [tpCount, likedCount]
    exact countP_and_le _ _ merged
  refine ⟨by dsimp only; omega, by dsimp only; omega, by dsimp only; omega,
    by dsimp only; omega, by dsimp only; omega, fun hpos huniq => ?_⟩
  have h2 : tpCount merged k u ≤ k := tpCount_le_k merged k u hpos huniq
  dsimp only
  omega

/-- Witness for the amended C3 on a two-row valid merged table, the rank
invariants discharged concretely for the FP part. -/
theorem calcConfusions_row_invariants_witness :
    ({ user := 0, liked := 2, tp := 1, fp := 0, fn := 1 } : ConfusionRow).tp +
        ({ user := 0, liked := 2, tp := 1, fp := 0, fn := 1 } : ConfusionRow).fp = (1 : Int) ∧
      ({ user := 0, liked := 2, tp := 1, fp := 0, fn := 1 } : ConfusionRow).tp +
        ({ user := 0, liked := 2, tp := 1, fp := 0, fn := 1 } : ConfusionRow).fn =
        ({ user := 0, liked := 2, tp := 1, fp := 0, fn := 1 } : ConfusionRow).liked ∧
      0 ≤ ({ user := 0, liked := 2, tp := 1, fp := 0, fn := 1 } : ConfusionRow).liked ∧
      0 ≤ ({ user := 0, liked := 2, tp := 1, fp := 0, fn := 1 } : ConfusionRow).tp ∧
      0 ≤ ({ user := 0, liked := 2, tp := 1, fp := 0, fn := 1 } : ConfusionRow).fn ∧
      0 ≤ ({ user := 0, liked := 2, tp := 1, fp := 0, fn := 1 } : ConfusionRow).fp :=
  have h := calcConfusions_row_invariants
    [{ user := 0, item := 0, rank := some 1, interacted := true },
      { user := 0, item := 1, rank := some 2, interacted := true }] 1
    { user := 0, liked := 2, tp := 1, fp := 0, fn := 1 } (by decide)
  ⟨h.1, h.2.1, h.2.2.1, h.2.2.2.1, h.2.2.2.2.1,
    h.2.2.2.2.2 (by decide) (by decide)⟩

/-- Counterexample to C3 as stated: a merged table with a duplicated rank
(two interaction rows hitting the same recommended rank, as duplicate
interactions produce) makes TP exceed `k`, so `FP = k - TP` is negative. -/
theorem calcConfusions_negative_fp :
    calcConfusions [{ user := 0, item := 0, rank := some 1, interacted := true },
        { user := 0, item := 1, rank := some 1, interacted := true }] 1 =
      [{ user := 0, liked := 2, tp := 2, fp := -1, fn := 0 }] ∧
    ¬(0 ≤ (-1 : Int)) := by
  decide

/-! ## Claims about the batch driver -/

/-- One metric evaluation raises exactly when the metric needs a catalog
and none was supplied, and the exception is the `ValueError`. -/
theorem evalMetric_error_iff (m : CMetric) (df : ConfusionDF)
    (catalog : Option (List Nat)) (e : DriverErr) :
    evalMetric m df catalog = .error e ↔
      (e = .valueError ∧ m.needsCatalog = true ∧ catalog = none) := by
  cases m <;> cases catalog <;> simp [evalMetric, CMetric.needsCatalog, eq_comm]

/-- One metric evaluation succeeds whenever a missing catalog is not
needed. -/
theorem evalMetric_ok_exists (m : CMetric) (df : ConfusionDF)
    (catalog : Option (List Nat)) (h : catalog = none → m.needsCatalog = false) :
    ∃ v, evalMetric m df catalog = .ok v := by
  cases catalog with
  | none =>
    cases m <;> first
      | exact ⟨_, rfl⟩
      | (exfalso; simpa [CMetric.needsCatalog] using h rfl)
  | some cat => cases m <;> exact ⟨_, rfl⟩

/-- A `k` group whose metrics never need a missing catalog is processed
without an exception. -/
theorem goGroup_ok_exists (ds : DebiasParams → List MergedRow → List MergedRow)
    (merged : List MergedRow) (catalog : Option (List Nat)) (k : Nat) :
    ∀ (es : List (String × CMetric)),
      (catalog = none → es.any (fun p => p.2.needsCatalog) = false) →
      ∃ rs c, goGroup ds merged catalog k es = .ok (rs, c)
  | [], _ => ⟨[], 0, rfl⟩
  | (name, m) :: rest, h => by
    have hm : catalog = none → m.needsCatalog = false := by
      intro hc
      have := h hc
      simp only [List.any_cons, Bool.or_eq_false_iff] at this
      exact this.1
    obtain ⟨v, hv⟩ := evalMetric_ok_exists m (buildConfusionDF ds merged k m) catalog hm
    obtain ⟨rs, c, hrc⟩ := goGroup_ok_exists ds merged catalog k rest (by
      intro hc
      have := h hc
      simp only [List.any_cons, Bool.or_eq_false_iff] at this
      exact this.2)
    exact ⟨(name, v) :: rs, c + 1, by simp [goGroup, hv, hrc]⟩

/-- With no catalog, a `k` group holding a catalog-needing metric raises
the `ValueError`. -/
theorem goGroup_error_of_needs (ds : DebiasParams → List MergedRow → List MergedRow)
    (merged : List MergedRow) (k : Nat) :
    ∀ (es : List (String × CMetric)),
      es.any (fun p => p.2.needsCatalog) = true →
      goGroup ds merged none k es = .error .valueError
  | (name, m) :: rest, h => by
    by_cases hm : m.needsCatalog = true
    · have hev : evalMetric m (buildConfusionDF ds merged k m) none = .error .valueError := by
        cases m <;> simp [CMetric.needsCatalog] at hm <;> rfl
      simp [goGroup, hev]
    · have hrest : rest.any (fun p => p.2.needsCatalog) = true := by
        simp only [List.any_cons, Bool.or_eq_true] at h
        rcases h with h | h
        · exact absurd h hm
        · exact h
      obtain ⟨v, hv⟩ := evalMetric_ok_exists m (buildConfusionDF ds merged k m) none
        (fun _ => by simpa using hm)
      simp [goGroup, hv, goGroup_error_of_needs ds merged k rest hrest]

/-- A `k` group raises only the `ValueError`, only with no catalog, and
only when it holds a catalog-needing metric. -/
theorem goGroup_error_elim (ds : DebiasParams → List MergedRow → List MergedRow)
    (merged : List MergedRow) (catalog : Option (List Nat)) (k : Nat) :
    ∀ (es : List (String × CMetric)) (e : DriverErr),
      goGroup ds merged catalog k es = .error e →
      e = .valueError ∧ catalog = none ∧ es.any (fun p => p.2.needsCatalog) = true
  | [], e, h => by simp [goGroup] at h
  | (name, m) :: rest, e, h => by
    rw [goGroup] at h
    cases hev : evalMetric m (buildConfusionDF ds merged k m) catalog with
    | error e2 =>
      rw [hev] at h
      simp only [] at h
      obtain ⟨h1, h2, h3⟩ := (evalMetric_error_iff m _ catalog e2).mp hev
      cases h
      exact ⟨h1, h3, by simp [List.any_cons, h2]⟩
    | ok v =>
      rw [hev] at h
      cases hg : goGroup ds merged catalog k rest with
      | error e2 =>
        rw [hg] at h
        simp only [] at h
        obtain ⟨h1, h2, h3⟩ := goGroup_error_elim ds merged catalog k rest e2 hg
        cases h
        exact ⟨h1, h2, by simp [List.any_cons, h3]⟩
      | ok pr =>
        obtain ⟨rs, c⟩ := pr
        rw [hg] at h
        simp at h

/-- The outer loop succeeds whenever no metric needs a missing catalog. -/
theorem goAll_ok_exists (ds : DebiasParams → List MergedRow → List MergedRow)
    (merged : List MergedRow) (catalog : Option (List Nat)) :
    ∀ (gs : List (Nat × List (String × CMetric))),
      (catalog = none →
        gs.any (fun g => g.2.any (fun p => p.2.needsCatalog)) = false) →
      ∃ rs c, goAll ds merged catalog gs = .ok (rs, c)
  | [], _ => ⟨[], 0, rfl⟩
  | (k, es) :: rest, h => by
    obtain ⟨rs, c, hrc⟩ := goGroup_ok_exists ds merged catalog k es (by
      intro hc
      have := h hc
      simp only [List.any_cons, Bool.or_eq_false_iff] at this
      exact this.1)
    obtain ⟨rs2, c2, hrc2⟩ := goAll_ok_exists ds merged catalog rest (by
      intro hc
      have := h hc
      simp only [List.any_cons, Bool.or_eq_false_iff] at this
      exact this.2)
    exact ⟨rs ++ rs2, c + c2, by simp [goAll, hrc, hrc2]⟩

/-- With no catalog, the driver raises the `ValueError` as soon as some
group holds a catalog-needing metric. -/
theorem goAll_error_of_needs (ds : DebiasParams → List MergedRow → List MergedRow)
    (merged : List MergedRow) :
    ∀ (gs : List (Nat × List (String × CMetric))),
      gs.any (fun g => g.2.any (fun p => p.2.needsCatalog)) = true →
      goAll ds merged none gs = .error .valueError
  | (k, es) :: rest, h => by
    by_cases hg : es.any (fun p => p.2.needsCatalog) = true
    · simp [goAll, goGroup_error_of_needs ds merged k es hg]
    · have hrest : rest.any (fun g => g.2.any (fun p => p.2.needsCatalog)) = true := by
        simp only [List.any_cons, Bool.or_eq_true] at h
        rcases h with h | h
        · exact absurd h hg
        · exact h
      obtain ⟨rs, c, hrc⟩ := goGroup_ok_exists ds merged none k es
        (fun _ => by simpa using hg)
      simp [goAll, hrc, goAll_error_of_needs ds merged rest hrest]

/-- The outer loop raises only the `ValueError`, only with no catalog, and
only when some group holds a catalog-needing metric. -/
theorem goAll_error_elim (ds : DebiasParams → List MergedRow → List MergedRow)
    (merged : List MergedRow) (catalog : Option (List Nat)) :
    ∀ (gs : List (Nat × List (String × CMetric))) (e : DriverErr),
      goAll ds merged catalog gs = .error e →
      e = .valueError ∧ catalog = none ∧
        gs.any (fun g => g.2.any (fun p => p.2.needsCatalog)) = true
  | [], e, h => by simp [goAll] at h
  | (k, es) :: rest, e, h => by
    rw [goAll] at h
    cases hg : goGroup ds merged catalog k es with
    | error e2 =>
      rw [hg] at h
      simp only [] at h
      obtain ⟨h1, h2, h3⟩ := goGroup_error_elim ds merged catalog k es e2 hg
      cases h
      exact ⟨h1, h2, by simp [List.any_cons, h3]⟩
    | ok pr =>
      obtain ⟨rs, c⟩ := pr
      rw [hg] at h
      cases hrest : goAll ds merged catalog rest with
      | error e2 =>
        rw [hrest] at h
        simp only [] at h
        obtain ⟨h1, h2, h3⟩ := goAll_error_elim ds merged catalog rest e2 hrest
        cases h
        exact ⟨h1, h2, by simp [List.any_cons, h3]⟩
      | ok pr2 =>
        obtain ⟨rs2, c2⟩ := pr2
        rw [hrest] at h
        simp at h

/-- Some metric of the `k_map` grouping needs a catalog exactly when some
metric of the original mapping does. -/
theorem kMap_any_needs_iff (ms : List (String × CMetric)) :
    (kMap ms).any (fun g => g.2.any (fun p => p.2.needsCatalog)) = true ↔
      ms.any (fun p => p.2.needsCatalog) = true := by
  simp only [List.any_eq_true, kMap, List.mem_map]
  constructor
  · rintro ⟨g, ⟨kk, hkk, rfl⟩, p, hp, hneed⟩
    exact ⟨p, (List.mem_filter.mp hp).1, hneed⟩
  · rintro ⟨p, hp, hneed⟩
    refine ⟨(p.2.k, ms.filter (fun q => decide (q.2.k = p.2.k))),
      ⟨p.2.k, ?_, rfl⟩, p, ?_, hneed⟩
    · exact (mem_firstDedup _ _).mpr (List.mem_map.mpr ⟨p, hp, rfl⟩)
    · exact List.mem_filter.mpr ⟨hp, by simp⟩

/-- Claim C7: `calc_classification_metrics` raises the configuration
`ValueError` if and only if some catalog-dependent metric (Accuracy, MCC
or a Debias variant of them) is present and no catalog was supplied; the
exception aborts the call, so no partial results dict is returned. -/
theorem driver_valueError_iff (ds : DebiasParams → List MergedRow → List MergedRow)
    (metrics : List (String × CMetric)) (merged : List MergedRow)
    (catalog : Option (List Nat)) :
    calcClassificationMetrics ds metrics merged catalog = .error .valueError ↔
      (catalog = none ∧ ∃ p ∈ metrics, p.2.needsCatalog = true) := by
  rw [calcClassificationMetrics]
  constructor
  · intro h
    obtain ⟨_, hc, hany⟩ := goAll_error_elim ds merged catalog (kMap metrics) _ h
    refine ⟨hc, ?_⟩
    have := (kMap_any_needs_iff metrics).mp hany
    simpa [List.any_eq_true] using this
  · rintro ⟨hc, p, hp, hneed⟩
    subst hc
    exact goAll_error_of_needs ds merged (kMap metrics)
      ((kMap_any_needs_iff metrics).mpr (List.any_eq_true.mpr ⟨p, hp, hneed⟩))

/-- Witness for C7: requesting `Accuracy@2` with no catalog raises the
`ValueError`. -/
theorem driver_valueError_iff_witness :
    calcClassificationMetrics (fun _ m => m) [("acc", .accuracy 2)] [] none =
      .error .valueError :=
  (driver_valueError_iff (fun _ m => m) [("acc", .accuracy 2)] [] none).mpr
    ⟨rfl, ("acc", .accuracy 2), List.mem_singleton.mpr rfl, rfl⟩

/-- A successful `k` group run performs one `calcConfusions` call per
metric of the group. -/
theorem goGroup_ok_count (ds : DebiasParams → List MergedRow → List MergedRow)
    (merged : List MergedRow) (catalog : Option (List Nat)) (k : Nat) :
    ∀ (es : List (String × CMetric)) (rs : List (String × ResVal)) (c : Nat),
      goGroup ds merged catalog k es = .ok (rs, c) → c = es.length
  | [], rs, c, h => by
    simp [goGroup] at h
    simp only [List.length_nil]
    omega
  | (name, m) :: rest, rs, c, h => by
    rw [goGroup] at h
    cases hev : evalMetric m (buildConfusionDF ds merged k m) catalog with
    | error e => rw [hev] at h; simp at h
    | ok v =>
      rw [hev] at h
      cases hg : goGroup ds merged catalog k rest with
      | error e => rw [hg] at h; simp at h
      | ok pr =>
        obtain ⟨rs2, c2⟩ := pr
        rw [hg] at h
        simp only [Except.ok.injEq, Prod.mk.injEq] at h
        have := goGroup_ok_count ds merged catalog k rest rs2 c2 hg
        simp [← h.2, this]

/-- A successful driver run performs one `calcConfusions` call per metric
of each group. -/
theorem goAll_ok_count (ds : DebiasParams → List MergedRow → List MergedRow)
    (merged : List MergedRow) (catalog : Option (List Nat)) :
    ∀ (gs : List (Nat × List (String × CMetric))) (rs : List (String × ResVal)) (c : Nat),
      goAll ds merged catalog gs = .ok (rs, c) →
      c = (gs.map (fun g => g.2.length)).sum
  | [], rs, c, h => by
    simp [goAll] at h
    simp only [List.map_nil, List.sum_nil]
    omega
  | (k, es) :: rest, rs, c, h => by
    rw [goAll] at h
    cases hg : goGroup ds merged catalog k es with
    | error e => rw [hg] at h; simp at h
    | ok pr =>
      obtain ⟨rs1, c1⟩ := pr
      rw [hg] at h
      cases hrest : goAll ds merged catalog rest with
      | error e => rw [hrest] at h; simp at h
      | ok pr2 =>
        obtain ⟨rs2, c2⟩ := pr2
        rw [hrest] at h
        simp only [Except.ok.injEq, Prod.mk.injEq] at h
        have h1 := goGroup_ok_count ds merged catalog k es rs1 c1 hg
        have h2 := goAll_ok_count ds merged catalog rest rs2 c2 hrest
        simp [← h.2, h1, h2]

/-- Two functions agreeing on a list's members map it equally. -/
theorem map_congr_mem {α β : Type} (f g : α → β) :
    ∀ (l : List α), (∀ a ∈ l, f a = g a) → l.map f = l.map g
  | [], _ => rfl
  | a :: l, h => by
    rw [List.map_cons, List.map_cons, h a (List.mem_cons_self a l),
      map_congr_mem f g l (fun b hb => h b (List.mem_cons_of_mem a hb))]

/-- Partitioning a metric list by a duplicate-free cover of its `k` keys
accounts for every entry exactly once. -/
theorem length_filter_key_partition :
    ∀ (ks : List Nat) (l : List (String × CMetric)), ks.Nodup →
      (∀ p ∈ l, p.2.k ∈ ks) →
      (ks.map (fun j => (l.filter (fun p => decide (p.2.k = j))).length)).sum = l.length
  | [], l, _, hcov => by
    have : l = [] := List.eq_nil_iff_forall_not_mem.mpr (fun a ha => by
      simpa using hcov a ha)
    simp [this]
  | j :: ks, l, hnd, hcov => by
    simp only [List.map_cons, List.sum_cons]
    have hsplit := length_filter_add_not (fun p => decide (p.2.k = j)) l
    have hrest : ks.map (fun i => (l.filter (fun p => decide (p.2.k = i))).length) =
        ks.map (fun i =>
          ((l.filter (fun p => !decide (p.2.k = j))).filter
            (fun p => decide (p.2.k = i))).length) := by
      refine map_congr_mem _ _ ks (fun i hi => ?_)
      rw [filter_filter_and]
      congr 1
      refine filter_congr_mem _ _ l (fun p hp => ?_)
      by_cases hpk : p.2.k = i
      · have hji : i ≠ j := fun hij => (List.nodup_cons.mp hnd).1 (hij ▸ hi)
        simp [hpk, hji]
      · simp [hpk]
    have hih : (ks.map (fun i =>
        ((l.filter (fun p => !decide (p.2.k = j))).filter
          (fun p => decide (p.2.k = i))).length)).sum =
        (l.filter (fun p => !decide (p.2.k = j))).length := by
      refine length_filter_key_partition ks _ (List.nodup_cons.mp hnd).2 ?_
      intro p hp
      have hmem := List.mem_filter.mp hp
      have hcv := hcov p hmem.1
      rcases List.mem_cons.mp hcv with h | h
      · exfalso
        have := hmem.2
        simp [h] at this
      · exact h
    rw [hrest, hih]
    omega

/-- The `k_map` groups of a metric mapping hold every entry exactly
once. -/
theorem kMap_sum_lengths (ms : List (String × CMetric)) :
    ((kMap ms).map (fun g => g.2.length)).sum = ms.length := by
  rw [kMap, List.map_map]
  have := length_filter_key_partition (firstDedup (ms.map (fun p => p.2.k))) ms
    (nodup_firstDedup _)
    (fun p hp => (mem_firstDedup _ _).mpr (List.mem_map.mpr ⟨p, hp, rfl⟩))
  simpa [Function.comp] using this

/-- Claim C1 (amended): a successful `calc_classification_metrics` call
invokes `calc_confusions` exactly once per requested metric — not once per
distinct (k, debias-bucket) pair; the per-`k` grouping does not share the
table.  Non-debiased metrics sharing a `k` still see identical data, since
each rebuild runs on the same inputs. -/
theorem driver_calcConfusions_count (ds : DebiasParams → List MergedRow → List MergedRow)
    (metrics : List (String × CMetric)) (merged : List MergedRow)
    (catalog : Option (List Nat)) (c : Nat)
    (h : countOf (calcClassificationMetrics ds metrics merged catalog) = some c) :
    c = metrics.length := by
  rw [calcClassificationMetrics] at h
  cases hg : goAll ds merged catalog (kMap metrics) with
  | error e => rw [hg] at h; simp [countOf] at h
  | ok pr =>
    obtain ⟨rs, c2⟩ := pr
    rw [hg] at h
    simp only [countOf, Option.some.injEq] at h
    subst h
    exact (goAll_ok_count ds merged catalog (kMap metrics) rs c2 hg).trans
      (kMap_sum_lengths metrics)

/-- Witness for the amended C1: two metrics sharing k=1 trigger two
`calcConfusions` calls. -/
theorem driver_calcConfusions_count_witness :
    (2 : Nat) =
      ([("p", CMetric.precision 1), ("r", CMetric.recall 1)] :
        List (String × CMetric)).length :=
  driver_calcConfusions_count (fun _ m => m)
    [("p", CMetric.precision 1), ("r", CMetric.recall 1)]
    [{ user := 0, item := 0, rank := some 1, interacted := true }] none 2 (by decide)

/-- Counterexample to C1 as stated: two non-debiased metrics sharing k=1
form a single (k, debias-bucket) combination, yet the driver performs two
`calcConfusions` calls, not at most one. -/
theorem driver_rebuilds_confusions_per_metric :
    countOf (calcClassificationMetrics (fun _ m => m)
        [("p", CMetric.precision 1), ("r", CMetric.recall 1)]
        [{ user := 0, item := 0, rank := some 1, interacted := true }] none) = some 2 ∧
    ((([("p", CMetric.precision 1), ("r", CMetric.recall 1)] :
        List (String × CMetric)).map (fun p => (p.2.k, p.2.isDebias))).dedup).length = 1 ∧
    ¬(2 ≤ 1) := by
  decide
